import Mathlib

/-!
Verification of the operator-learning benchmarking toolkit.

This file gives a shallow embedding, in Lean 4, of the parts of the
repository relevant to the frozen claims: the `QuadraticIntegralDataset`
generator (`src/src/Datasets/MaskIntegralDataset.py`), the experiment log
aggregator (`src/plot_experiment.py`), the three evaluation drivers
(`src/plotting_scripts/1d.py`, `2d_diff_error_d.py`, `2d_worst_exp.py`),
and the worst-case displacement visualizer
(`src/plotting_scripts/plot_worst.py`).

Python floating-point tensors are modelled elementwise over `ℚ`; a tensor
of shape batch × n_samples is a `List (List ℚ)`.  Randomly drawn data is
passed in as an explicit argument (the draw itself lives in the external
tensor library), so every definition below is a deterministic function of
its inputs, exactly as the corresponding Python code is a deterministic
function of its inputs and the PRNG stream.
-/

namespace QuadraticIntegral

/-- Embeds line 67 of `MaskIntegralDataset.py` for a single coefficient
triple `(a, b, c)` and a single input `x`:
`ys = 1/3. * As * x ** 3 + 1/2. * Bs * x ** 2 + Cs * x`. -/
def computeOutput (a b c x : ℚ) : ℚ :=
  1/3 * a * x ^ 3 + 1/2 * b * x ^ 2 + c * x

/-- Embeds `QuadraticIntegralDataset.compute_outputs` (lines 64-68):
`As.unsqueeze(1)` broadcasts each function instance's coefficients across
that instance's sampled inputs.  Batch dimension = list position. -/
def compute_outputs : List ℚ → List ℚ → List ℚ → List (List ℚ) → List (List ℚ)
  | a :: as, b :: bs, c :: cs, xs :: xss =>
      xs.map (computeOutput a b c) :: compute_outputs as bs cs xss
  | _, _, _, _ => []

/-- Embeds lines 43-50 of `QuadraticIntegralDataset.sample_inputs`:
`samples_per_range = n_samples // n_ranges`, `remainder = n_samples % n_ranges`,
and range `i` receives `samples_per_range + (1 if i < remainder else 0)`
samples. -/
def samplesForRange (n_samples n_ranges i : ℕ) : ℕ :=
  n_samples / n_ranges + (if i < n_samples % n_ranges then 1 else 0)

/-- The per-range sample counts produced by the loop
`for i, r in enumerate(self.input_ranges)` in `sample_inputs`. -/
def allocation (n_samples n_ranges : ℕ) : List ℕ :=
  (List.range n_ranges).map (samplesForRange n_samples n_ranges)

/-- Embeds lines 60-61 of `sample_inputs`:
`indices = torch.randperm(xs.shape[1]); xs = xs[:, indices]`.
The drawn permutation `indices` is passed in explicitly; the same index
list is applied to every row (function instance) of the batch. -/
def applyPermutation (indices : List ℕ) (xss : List (List ℚ)) : List (List ℚ) :=
  xss.map (fun row => indices.map (fun i => row.getD i 0))

end QuadraticIntegral

namespace TwoDDiffError

/-- The fixed denormalization mean from `2d_diff_error_d.py` line 241:
`2.8366714104777202e-05`, as an exact rational. -/
def dmean : ℚ := 28366714104777202 / 10 ^ 21

/-- The fixed denormalization std from `2d_diff_error_d.py` line 241:
`4.263603113940917e-05`, as an exact rational. -/
def dstd : ℚ := 4263603113940917 / 10 ^ 20

/-- Embeds `denormalize` (lines 240-242): `y * std + mean`. -/
def denormalize (y : ℚ) : ℚ := y * dstd + dmean

/-- Embeds line 294: `info_offset1` uses function index `i - 50`. -/
def offset1 (i : ℤ) : ℤ := i - 50

/-- Embeds line 295: `info_offset2` uses function index `i - 100`. -/
def offset2 (i : ℤ) : ℤ := i - 100

/-- Embeds line 353 (and 363 for the operator network):
`b2b_sum = 10*b2b_y_offset1_denorm + 15*b2b_y_offset2_denorm`, elementwise
over the prediction tensor.  A model's prediction tensor at function index
`j` is `pred j : List ℚ`. -/
def modelSum (pred : ℤ → List ℚ) (i : ℤ) : List ℚ :=
  List.zipWith (fun y1 y2 => 10 * denormalize y1 + 15 * denormalize y2)
    (pred (offset1 i)) (pred (offset2 i))

/-- Embeds line 354: `b2b_diff = torch.abs(b2b_y_hardest_denorm - b2b_sum)`. -/
def linearityDiffs (pred : ℤ → List ℚ) (i : ℤ) : List ℚ :=
  List.zipWith (fun y0 s => |denormalize y0 - s|) (pred i) (modelSum pred i)

/-- Embeds line 343: `gt_sum = ys_offset1_denorm + ys_offset2_denorm`
(unweighted). -/
def gtSum (gt : ℤ → List ℚ) (i : ℤ) : List ℚ :=
  List.zipWith (fun y1 y2 => denormalize y1 + denormalize y2)
    (gt (offset1 i)) (gt (offset2 i))

/-- Embeds line 344: `gt_diff = torch.abs(ys_hardest_denorm - gt_sum)`. -/
def gtDiffs (gt : ℤ → List ℚ) (i : ℤ) : List ℚ :=
  List.zipWith (fun y0 s => |denormalize y0 - s|) (gt i) (gtSum gt i)

/-- `torch.max` over a tensor of absolute differences (all entries are
nonnegative, so folding from 0 agrees with the true maximum). -/
def maxDiff (l : List ℚ) : ℚ := l.foldl max 0

/-- Follows the spec's words (claim C4), NOT the source: the claimed
combination `10×prediction(i−100) + 15×prediction(i−50)`, to be compared
with `modelSum` from the source. -/
def specModelSum (pred : ℤ → List ℚ) (i : ℤ) : List ℚ :=
  List.zipWith (fun y1 y2 => 10 * denormalize y1 + 15 * denormalize y2)
    (pred (i - 100)) (pred (i - 50))

/-- Follows the spec's words (claim C4): the reported difference tensor if
the claimed combination were used. -/
def specLinearityDiffs (pred : ℤ → List ℚ) (i : ℤ) : List ℚ :=
  List.zipWith (fun y0 s => |denormalize y0 - s|) (pred i) (specModelSum pred i)

/-- A concrete prediction function separating the source's combination
from the claimed one: predicts 1 at function index −50 and 0 elsewhere. -/
def predC4 : ℤ → List ℚ := fun j => if j = -50 then [1] else [0]

end TwoDDiffError

namespace PlotExperiment

/-- The fixed algorithm roster of `plot_experiment.py` line 21. -/
def algs : List String :=
  ["SVD_least_squares", "matrix_least_squares", "Eigen_least_squares", "deeponet"]

/-- The per-algorithm statistics computed by the try-block of
`plot_experiment.py` lines 36-63 when it succeeds: the first seed's step
sequence and the per-step quartiles across seeds. -/
structure AlgData where
  steps : List ℚ
  median : List ℚ
  q1 : List ℚ
  q3 : List ℚ
deriving DecidableEq

/-- The observable per-dataset output when the `plot.png`/`plot.csv` writes
are reached: which algorithms appear in the plot, the y-axis upper bound
`maxy`, and which algorithms' columns are filled in the CSV. -/
structure DatasetOutput where
  plottedAlgs : List String
  maxy : ℚ
  csvAlgs : List String
deriving DecidableEq

/-- The `data` dictionary after the per-algorithm loop: one entry per
algorithm whose try-block succeeded (`logs a = some stats`); a failed
algorithm (absent directory or malformed logs, `logs a = none`) is caught,
printed, and skipped by the `except` clause of lines 64-66. -/
def collectData (logs : String → Option AlgData) : List (String × AlgData) :=
  algs.filterMap (fun a => (logs a).map (fun d => (a, d)))

/-- Embeds the per-dataset body of `plot_experiment.py` lines 25-94: run
the guarded per-algorithm loop, then compute
`maxy = data["deeponet"]["q3"][15]` — an access that sits OUTSIDE any
try/except, so a missing `deeponet` entry raises (KeyError) and a short
`q3` series raises (IndexError), aborting the run before `plot.png` and
`plot.csv` are written. -/
def runDataset (logs : String → Option AlgData) : Except String DatasetOutput :=
  let data := collectData logs
  match logs "deeponet" with
  | none => .error "KeyError"
  | some d =>
      if 15 < d.q3.length then
        .ok ⟨data.map Prod.fst, d.q3.getD 15 0, data.map Prod.fst⟩
      else .error "IndexError"

/-- Statistics with 16 q3 entries, used as a concrete successful log read. -/
def stats16 : AlgData := ⟨[0], [1], [1], List.replicate 16 1⟩

/-- A concrete log layout in which every algorithm's logs read fine except
`deeponet`, whose log directory is absent. -/
def logsNoDeeponet : String → Option AlgData := fun a =>
  if a = "deeponet" then none else some stats16

/-- A concrete log layout in which only `deeponet` has readable logs. -/
def logsOnlyDeeponet : String → Option AlgData := fun a =>
  if a = "deeponet" then some stats16 else none

end PlotExperiment

namespace WorstExp

/-- Embeds `2d_worst_exp.py` line 311: `minus_worst = -9`. -/
def minus_worst : ℤ := -9

/-- Embeds line 341: `offset_index = hardest_index + minus_worst`. -/
def offsetIndex (hardest : ℤ) : ℤ := hardest + minus_worst

/-- Embeds the resampling loop of lines 346-356, driven by a stream of
sampled batches: `stream n` is the list of `function_indicies` of the
`n`-th call to `testing_combined_dataset.sample`.  The Python loop
`while not found_offset` has no iteration cap; `fuel` bounds how many
iterations of it we observe — `none` means the loop is still running after
`fuel` samples. -/
def searchOffsetAux (stream : ℕ → List ℤ) (t : ℤ) : ℕ → ℕ → Option ℕ
  | _, 0 => none
  | start, fuel + 1 =>
      if t ∈ stream start then some start
      else searchOffsetAux stream t (start + 1) fuel

/-- The offset-index search observed for `fuel` iterations. -/
def searchOffset (stream : ℕ → List ℤ) (t : ℤ) (fuel : ℕ) : Option ℕ :=
  searchOffsetAux stream t 0 fuel

end WorstExp

namespace OneD

/-- The running state of the adversarial search of `1d.py` lines 234-260:
the retained hardest example (batch number and function position inside
that batch) and the retained loss `b2b_loss` (initialized to `-1000000`
at line 235). -/
structure SearchState where
  hardest : Option (ℕ × ℕ)
  b2bLoss : ℚ
deriving DecidableEq

/-- Embeds lines 234-235: nothing retained, `b2b_loss = -1000000`. -/
def initState : SearchState := ⟨none, -1000000⟩

/-- `torch.argmax` over a loss vector: position of the first maximum. -/
def argmax : List ℚ → ℕ
  | [] => 0
  | x :: xs => if xs ≠ [] ∧ x < xs.getD (argmax xs) 0 then argmax xs + 1 else 0

/-- Embeds lines 253-260: `max_index = torch.argmax(losses)`; if
`losses[max_index] > b2b_loss` retain that function instance and its
loss. -/
def searchStep (st : SearchState) (bi : ℕ) (losses : List ℚ) : SearchState :=
  if losses.getD (argmax losses) 0 > st.b2bLoss then
    ⟨some (bi, argmax losses), losses.getD (argmax losses) 0⟩
  else st

/-- The search loop of lines 237-260 over the remaining batches, `k` being
the current `search_step` counter. -/
def runSearchAux (st : SearchState) (k : ℕ) : List (List ℚ) → SearchState
  | [] => st
  | b :: bs => runSearchAux (searchStep st k b) (k + 1) bs

/-- The full adversarial search over a list of per-batch per-function loss
vectors (`losses = ((b2b_y_hats - ys)**2).mean(dim=(1,2))` of line 250). -/
def runSearch (batches : List (List ℚ)) : SearchState :=
  runSearchAux initState 0 batches

/-- Embeds `torch.manual_seed(seed)` (line 140) followed by the global
PRNG state evolving once per sampling call: `next` is the tensor library's
deterministic state-transition function. -/
def rngState (next : ℕ → ℕ) (seed : ℕ) : ℕ → ℕ
  | 0 => seed
  | k + 1 => next (rngState next seed k)

/-- The 1,000 sampled test batches of the search loop: batch `k` is drawn
from PRNG state `k`; `sampler` folds together the dataset and the model,
mapping a PRNG state to that batch's per-function loss vector. -/
def sampleBatches (next : ℕ → ℕ) (sampler : ℕ → List ℚ) (seed iters : ℕ) :
    List (List ℚ) :=
  (List.range iters).map (fun k => sampler (rngState next seed k))

/-- The whole seeded 1,000-iteration adversarial search of `1d.py`. -/
def adversarialSearch (next : ℕ → ℕ) (sampler : ℕ → List ℚ) (seed : ℕ) :
    SearchState :=
  runSearch (sampleBatches next sampler seed 1000)

end OneD

namespace PlotWorst

/-- Embeds lines 33-35 of `plot_worst.py`: `xi = np.linspace(0, 1, 200)`;
the `k`-th grid coordinate is `k/199`. -/
def gridCoord (k : ℕ) : ℚ := (k : ℚ) / 199

/-- Embeds line 50 for grid cell `(i, j)` (row `i`, column `j`; after
`meshgrid`, `X[i][j] = xi[j]` and `Y[i][j] = yi[i]`):
`mask = (X - 0.5)**2 + (Y - 0.5)**2 <= 0.25**2`. -/
def maskAt (i j : ℕ) : Bool :=
  decide ((gridCoord j - 1/2) ^ 2 + (gridCoord i - 1/2) ^ 2 ≤ (1/4) ^ 2)

/-- A cell of the rendered field: masked out by the hole mask, carrying a
finite interpolated value, or carrying the NaN fill value. -/
inductive Cell where
  | masked : Cell
  | val : ℚ → Cell
  | nan : Cell
deriving DecidableEq

/-- Embeds lines 45-51: `U = griddata(points, magnitude, (X, Y),
method="linear", fill_value=np.nan)` followed by
`U = np.ma.masked_where(mask, U)`.  The linear barycentric interpolant
`interp` returns `some v` (a finite value) inside the convex hull of the
scattered points and `none` (the NaN fill) outside it. -/
def renderCell (interp : ℚ → ℚ → Option ℚ) (i j : ℕ) : Cell :=
  if maskAt i j then Cell.masked
  else
    match interp (gridCoord j) (gridCoord i) with
    | some v => Cell.val v
    | none => Cell.nan

end PlotWorst

/-- `torch.argmax` over a vector with entries in a linear order, with
default `d` for out-of-range reads: position of the first maximum. -/
def argmaxW (d : WithBot ℚ) : List (WithBot ℚ) → ℕ
  | [] => 0
  | x :: xs => if xs ≠ [] ∧ x < xs.getD (argmaxW d xs) d then argmaxW d xs + 1 else 0

namespace TwoDDiffError

/-- Embeds line 254 of `2d_diff_error_d.py` for one function instance:
`valid_indices_mask = (info["function_indicies"] >= 100) &
(info["function_indicies"] <= 150)`. -/
def validIdx (n : ℤ) : Bool := decide (100 ≤ n ∧ n ≤ 150)

/-- Embeds line 272: `relative_losses[~valid_indices_mask] = -inf`.
A batch is the list of `(function index, relative loss)` pairs of its
function instances; `⊥ : WithBot ℚ` is `-inf`. -/
def maskedLosses (b : List (ℤ × ℚ)) : List (WithBot ℚ) :=
  b.map (fun p => if validIdx p.1 then (p.2 : WithBot ℚ) else ⊥)

/-- The running state of the search of lines 245-283: the retained
`hardest_info["function_indicies"]`, the retained `max_relative_loss`, and
the `found_valid_example` flag. -/
structure RelSearchState where
  hardestIdx : Option ℤ
  maxRelLoss : WithBot ℚ
  foundValid : Bool
deriving DecidableEq

/-- Embeds lines 245-248: nothing retained,
`max_relative_loss = -1000000`, `found_valid_example = False`. -/
def initRelState : RelSearchState := ⟨none, ((-1000000 : ℚ) : WithBot ℚ), false⟩

/-- Embeds one iteration of the search loop (lines 250-283): skip the
batch if no function index lies in [100,150]; otherwise set
`found_valid_example`, mask invalid instances to `-inf`, take the argmax,
and retain it if it strictly beats the running maximum. -/
def relStep (st : RelSearchState) (b : List (ℤ × ℚ)) : RelSearchState :=
  if b.all (fun p => !validIdx p.1) then st
  else if st.maxRelLoss < (maskedLosses b).getD (argmaxW ⊥ (maskedLosses b)) ⊥ then
    ⟨some ((b.getD (argmaxW ⊥ (maskedLosses b)) (0, 0)).1),
      (maskedLosses b).getD (argmaxW ⊥ (maskedLosses b)) ⊥, true⟩
  else ⟨st.hardestIdx, st.maxRelLoss, true⟩

/-- The full 1,000-batch search loop of lines 250-283. -/
def runRelSearch (batches : List (List (ℤ × ℚ))) : RelSearchState :=
  batches.foldl relStep initRelState

/-- Embeds lines 285-292: after the loop, `raise RuntimeError(...)` when
no valid example was found; otherwise report
`hardest_info["function_indicies"].item()` (reading `.item()` from a
never-set `None` would itself raise). -/
def relSearchResult (batches : List (List (ℤ × ℚ))) : Except String ℤ :=
  let st := runRelSearch batches
  if st.foundValid then
    match st.hardestIdx with
    | some n => Except.ok n
    | none => Except.error "AttributeError"
  else Except.error "RuntimeError"

/-- Proof-side state predicate: a valid example has been retained — the
flag is set, the retained function index lies in [100,150], and the
running maximum is a nonnegative (finite) loss. -/
def goodState (st : RelSearchState) : Prop :=
  st.foundValid = true ∧
    ∃ n : ℤ, st.hardestIdx = some n ∧ 100 ≤ n ∧ n ≤ 150 ∧
      ((0 : ℚ) : WithBot ℚ) ≤ st.maxRelLoss

end TwoDDiffError

section TheoremsC1C2C3

open QuadraticIntegral

/-- Helper: the `b`-th row of `compute_outputs` is the `b`-th input row
mapped through `computeOutput` at the `b`-th coefficients. -/
theorem compute_outputs_getD (As Bs Cs : List ℚ) (inputs : List (List ℚ)) (b : ℕ)
    (hA : b < As.length) (hB : b < Bs.length) (hC : b < Cs.length)
    (hx : b < inputs.length) :
    (compute_outputs As Bs Cs inputs).getD b [] =
      (inputs.getD b []).map
        (computeOutput (As.getD b 0) (Bs.getD b 0) (Cs.getD b 0)) := by
  induction As generalizing Bs Cs inputs b with
  | nil => simp at hA
  | cons a as ih =>
    cases Bs with
    | nil => simp at hB
    | cons bq bs =>
      cases Cs with
      | nil => simp at hC
      | cons c cs =>
        cases inputs with
        | nil => simp at hx
        | cons xs xss =>
          cases b with
          | zero => simp [compute_outputs]
          | succ b =>
            simp only [compute_outputs, List.getD_cons_succ]
            exact ih bs cs xss b (Nat.lt_of_succ_lt_succ hA)
              (Nat.lt_of_succ_lt_succ hB) (Nat.lt_of_succ_lt_succ hC)
              (Nat.lt_of_succ_lt_succ hx)

/-- Helper: `getD` through a `map` whose function sends the default to the
default. -/
theorem getD_map_of_fixed (l : List ℚ) (f : ℚ → ℚ) (s : ℕ) (hf : f 0 = 0) :
    (l.map f).getD s 0 = f (l.getD s 0) := by
  induction l generalizing s with
  | nil => simp [hf]
  | cons x xs ih =>
    cases s with
    | zero => simp
    | succ s => simpa using ih s

/-- C1: `compute_outputs(info, x)` returns exactly
`(1/3)·A·x³ + (1/2)·B·x² + C·x` — the antiderivative of `A·x² + B·x + C`
with integration constant zero — broadcasting each function instance's
coefficients across its sampled inputs; in particular A=1,B=0,C=0,x=3
gives 9, A=0,B=1,C=0,x=2 gives 2, and A=0,B=0,C=1,x=5 gives 5. -/
theorem C1_compute_outputs_antiderivative (As Bs Cs : List ℚ)
    (inputs : List (List ℚ)) (b s : ℕ)
    (hA : b < As.length) (hB : b < Bs.length) (hC : b < Cs.length)
    (hx : b < inputs.length) :
    ((compute_outputs As Bs Cs inputs).getD b []).getD s 0 =
        (As.getD b 0) / 3 * ((inputs.getD b []).getD s 0) ^ 3
        + (Bs.getD b 0) / 2 * ((inputs.getD b []).getD s 0) ^ 2
        + (Cs.getD b 0) * ((inputs.getD b []).getD s 0) ∧
      ((compute_outputs [1] [0] [0] [[3]]).getD 0 []).getD 0 0 = 9 ∧
      ((compute_outputs [0] [1] [0] [[2]]).getD 0 []).getD 0 0 = 2 ∧
      ((compute_outputs [0] [0] [1] [[5]]).getD 0 []).getD 0 0 = 5 := by
  refine ⟨?_, by norm_num [compute_outputs, computeOutput],
    by norm_num [compute_outputs, computeOutput],
    by norm_num [compute_outputs, computeOutput]⟩
  rw [compute_outputs_getD As Bs Cs inputs b hA hB hC hx]
  rw [getD_map_of_fixed _ _ _ (by simp [computeOutput])]
  unfold computeOutput
  ring

/-- Witness for C1 at a concrete input. -/
theorem C1_witness :
    ((compute_outputs [1, 0] [0, 1] [0, 0] [[3], [2]]).getD 1 []).getD 0 0 =
      (2 : ℚ) := by
  have h := (C1_compute_outputs_antiderivative [1, 0] [0, 1] [0, 0]
    [[3], [2]] 1 0 (by decide) (by decide) (by decide) (by decide)).1
  norm_num at h ⊢
  exact h

/-- C2 (code bug): the source comment in `sample_inputs` says
"Allocate remaining samples to the last range", but the code
`samples_per_range + (1 if i < remainder else 0)` gives the remainder to
the *first* ranges: for `n_samples = 101` over 2 ranges the first range
receives 51 samples and the second 50, not 50 and 51 as claimed. -/
theorem C2_allocation_remainder_goes_first :
    allocation 101 2 = [51, 50] ∧ allocation 101 2 ≠ [50, 51] := by
  constructor <;> decide

/-- C3: applying one shared permutation `indices` (a permutation of
`range n`) to the sample axis of a batch whose rows all have length `n`
preserves each row's multiset of values, and position `k` of every output
row pulls from the same pre-shuffle position `indices[k]`. -/
theorem C3_shared_permutation (indices : List ℕ) (n : ℕ) (xss : List (List ℚ))
    (hperm : indices.Perm (List.range n))
    (hlen : ∀ row ∈ xss, row.length = n) :
    (∀ b : ℕ, b < xss.length →
        ((applyPermutation indices xss).getD b []).Perm (xss.getD b [])) ∧
      (∀ b k : ℕ, b < xss.length → k < n →
        ((applyPermutation indices xss).getD b []).getD k 0 =
          (xss.getD b []).getD (indices.getD k 0) 0) := by
  have hlen' : indices.length = n := by
    simpa using hperm.length_eq
  have hrow : ∀ b : ℕ, b < xss.length →
      (applyPermutation indices xss).getD b [] =
        indices.map (fun i => (xss.getD b []).getD i 0) := by
    intro b hb
    unfold applyPermutation
    rw [List.getD_eq_getElem _ _ (by simpa using hb), List.getElem_map,
      List.getD_eq_getElem _ _ hb]
  constructor
  · intro b hb
    rw [hrow b hb]
    have hmem : xss.getD b [] ∈ xss := by
      rw [List.getD_eq_getElem _ _ hb]
      exact List.getElem_mem hb
    have hn : (xss.getD b []).length = n := hlen _ hmem
    have hmap := hperm.map (fun i => (xss.getD b []).getD i 0)
    have hid : (List.range n).map (fun i => (xss.getD b []).getD i 0) =
        xss.getD b [] := by
      apply List.ext_getElem
      · rw [List.length_map, List.length_range]
        exact hn.symm
      · intro i h1 h2
        simp only [List.getElem_map, List.getElem_range]
        rw [List.getD_eq_getElem _ _ h2]
    rw [hid] at hmap
    exact hmap
  · intro b k hb hk
    rw [hrow b hb]
    have hki : k < indices.length := by omega
    rw [List.getD_eq_getElem _ _ (by simpa using hki), List.getElem_map,
      List.getD_eq_getElem indices _ hki]

/-- Witness for C3 at a concrete permutation and batch. -/
theorem C3_witness :
    ((applyPermutation [1, 0] [[10, 20], [30, 40]]).getD 0 []).Perm
        ([10, 20] : List ℚ) ∧
      ((applyPermutation [1, 0] [[10, 20], [30, 40]]).getD 0 []).getD 0 0 =
        ([10, 20] : List ℚ).getD 1 0 ∧
      ((applyPermutation [1, 0] [[10, 20], [30, 40]]).getD 1 []).getD 0 0 =
        ([30, 40] : List ℚ).getD 1 0 := by
  have h := C3_shared_permutation [1, 0] 2 [[10, 20], [30, 40]]
    (by decide) (by intro row hr; fin_cases hr <;> rfl)
  refine ⟨by simpa using h.1 0 (by norm_num), ?_, ?_⟩
  · have := h.2 0 0 (by norm_num) (by norm_num)
    simpa using this
  · have := h.2 1 0 (by norm_num) (by norm_num)
    simpa using this

end TheoremsC1C2C3

section TheoremsC4C5

open TwoDDiffError PlotExperiment

/-- Helper: `getD` through `zipWith` at an in-bounds position. -/
theorem getD_zipWith (f : ℚ → ℚ → ℚ) (l1 l2 : List ℚ) (k : ℕ)
    (h1 : k < l1.length) (h2 : k < l2.length) :
    (List.zipWith f l1 l2).getD k 0 = f (l1.getD k 0) (l2.getD k 0) := by
  induction l1 generalizing l2 k with
  | nil => simp at h1
  | cons x xs ih =>
    cases l2 with
    | nil => simp at h2
    | cons y ys =>
      cases k with
      | zero => simp
      | succ k =>
        simpa using ih ys k (Nat.lt_of_succ_lt_succ h1)
          (Nat.lt_of_succ_lt_succ h2)

/-- Helper: the seed of a `foldl max` is a lower bound of the result. -/
theorem foldl_max_seed_le (l : List ℚ) (a : ℚ) : a ≤ l.foldl max a := by
  induction l generalizing a with
  | nil => simp
  | cons x xs ih => exact le_trans (le_max_left a x) (ih (max a x))

/-- Helper: every member of a list is bounded by its `foldl max`. -/
theorem mem_le_foldl_max (l : List ℚ) (a : ℚ) :
    ∀ x ∈ l, x ≤ l.foldl max a := by
  induction l generalizing a with
  | nil => simp
  | cons y ys ih =>
    intro x hx
    rcases List.mem_cons.mp hx with h | h
    · subst h
      exact le_trans (le_max_right a x) (foldl_max_seed_le ys (max a x))
    · exact ih (max a y) x h

/-- C4 counterexample: the driver computes
`b2b_sum = 10×pred(i−50) + 15×pred(i−100)` (offset1 = i−50 carries
coefficient 10), which differs — both as a difference tensor and as the
reported maximum — from the claimed `10×pred(i−100) + 15×pred(i−50)` at a
concrete prediction function. -/
theorem C4_counterexample :
    linearityDiffs predC4 0 ≠ specLinearityDiffs predC4 0 ∧
      maxDiff (linearityDiffs predC4 0) ≠ maxDiff (specLinearityDiffs predC4 0) := by
  have h0 : predC4 0 = [0] := by decide
  have h1 : predC4 (0 - 50) = [1] := by decide
  have h2 : predC4 (0 - 100) = [0] := by decide
  constructor <;>
    · simp only [linearityDiffs, specLinearityDiffs, modelSum, specModelSum,
        maxDiff, offset1, offset2, h0, h1, h2, List.zipWith, List.foldl]
      norm_num [denormalize, dmean, dstd, abs_of_pos]

/-- C4 amended: given the hardest instance's function index `i`, the
reported model-linearity check compares each model's denormalized
prediction at `i` against `10×prediction(i−50) + 15×prediction(i−100)`
(coefficient 10 pairs with offset −50 and 15 with −100 — the reverse of
the claimed pairing), and the ground-truth check compares ground truth at
`i` against the unweighted sum at `i−50` and `i−100`; the reported maximum
bounds every entry of the difference tensor. -/
theorem C4_amended_linearity_check (pred gt : ℤ → List ℚ) (i : ℤ) (k : ℕ)
    (hk : k < (pred i).length)
    (h1 : (pred (i - 50)).length = (pred i).length)
    (h2 : (pred (i - 100)).length = (pred i).length)
    (hgk : k < (gt i).length)
    (hg1 : (gt (i - 50)).length = (gt i).length)
    (hg2 : (gt (i - 100)).length = (gt i).length) :
    (linearityDiffs pred i).getD k 0 =
        |denormalize ((pred i).getD k 0) -
          (10 * denormalize ((pred (i - 50)).getD k 0) +
            15 * denormalize ((pred (i - 100)).getD k 0))| ∧
      (gtDiffs gt i).getD k 0 =
        |denormalize ((gt i).getD k 0) -
          (denormalize ((gt (i - 50)).getD k 0) +
            denormalize ((gt (i - 100)).getD k 0))| ∧
      ∀ d ∈ linearityDiffs pred i, d ≤ maxDiff (linearityDiffs pred i) := by
  have ho1 : offset1 i = i - 50 := rfl
  have ho2 : offset2 i = i - 100 := rfl
  refine ⟨?_, ?_, ?_⟩
  · rw [linearityDiffs, modelSum, ho1, ho2,
      getD_zipWith _ _ _ _ hk (by simp only [List.length_zipWith]; omega),
      getD_zipWith _ _ _ _ (by omega) (by omega)]
  · rw [gtDiffs, gtSum, ho1, ho2,
      getD_zipWith _ _ _ _ hgk (by simp only [List.length_zipWith]; omega),
      getD_zipWith _ _ _ _ (by omega) (by omega)]
  · exact mem_le_foldl_max _ 0

/-- Witness for the amended C4 at a concrete prediction function. -/
theorem C4_amended_witness :
    (linearityDiffs (fun _ => [1]) 0).getD 0 0 =
        |denormalize 1 - (10 * denormalize 1 + 15 * denormalize 1)| := by
  have h := (C4_amended_linearity_check (fun _ => [1]) (fun _ => [1]) 0 0
    (by decide) (by decide) (by decide) (by decide) (by decide) (by decide)).1
  simpa using h

/-- Helper: the algorithms present in the collected data dictionary are
exactly the algorithms whose log reads succeeded, in roster order. -/
theorem filterMap_tag_fst (f : String → Option PlotExperiment.AlgData)
    (l : List String) :
    (l.filterMap (fun a => (f a).map (fun d => (a, d)))).map Prod.fst =
      l.filter (fun a => (f a).isSome) := by
  induction l with
  | nil => rfl
  | cons a l ih => cases h : f a <;> simp [List.filterMap_cons, h, ih]

/-- C5 counterexample: with every algorithm's logs readable except
`deeponet` (its directory absent), the aggregator's per-dataset run aborts
at `maxy = data["deeponet"]["q3"][15]` instead of producing the remaining
algorithms' plot and CSV. -/
theorem C5_counterexample :
    logsNoDeeponet "deeponet" = none ∧
      (∀ a ∈ algs, a ≠ "deeponet" → (logsNoDeeponet a).isSome = true) ∧
      runDataset logsNoDeeponet = Except.error "KeyError" := by
  refine ⟨rfl, by decide, rfl⟩

/-- C5 amended: a failed per-algorithm log read is caught, printed, and
that algorithm is skipped — the plot and CSV still cover exactly the
algorithms that read fine — PROVIDED the `deeponet` logs read fine with at
least 16 `q3` entries; the y-limit access `data["deeponet"]["q3"][15]`
sits outside the try/except, so a missing or malformed `deeponet` entry
aborts the whole run. -/
theorem C5_amended_skip_unless_deeponet (logs : String → Option AlgData)
    (d : AlgData) (hd : logs "deeponet" = some d) (hq3 : 15 < d.q3.length) :
    runDataset logs =
      Except.ok ⟨algs.filter (fun a => (logs a).isSome), d.q3.getD 15 0,
        algs.filter (fun a => (logs a).isSome)⟩ := by
  unfold runDataset collectData
  rw [hd]
  dsimp only
  rw [if_pos hq3, filterMap_tag_fst]

/-- Witness for the amended C5 at a concrete log layout (only `deeponet`
readable). -/
theorem C5_amended_witness :
    runDataset logsOnlyDeeponet =
      Except.ok ⟨["deeponet"], 1, ["deeponet"]⟩ := by
  have h := C5_amended_skip_unless_deeponet logsOnlyDeeponet stats16 rfl
    (by decide)
  rw [h]
  simp +decide [algs, logsOnlyDeeponet, stats16, List.filter]

end TheoremsC4C5

section TheoremsC6C7C8

open WorstExp OneD

/-- Helper: the offset-search observed from position `start` with `fuel`
iterations finds a batch exactly when one of the next `fuel` batches
contains the target index. -/
theorem searchOffsetAux_isSome_iff (stream : ℕ → List ℤ) (t : ℤ) :
    ∀ (fuel start : ℕ),
      (searchOffsetAux stream t start fuel).isSome ↔
        ∃ k, k < fuel ∧ t ∈ stream (start + k)
  | 0, start => by simp [searchOffsetAux]
  | fuel + 1, start => by
      rw [searchOffsetAux]
      by_cases h : t ∈ stream start
      · simp only [h, if_true, Option.isSome_some, true_iff]
        exact ⟨0, Nat.succ_pos fuel, by simpa using h⟩
      · rw [if_neg h, searchOffsetAux_isSome_iff stream t fuel (start + 1)]
        constructor
        · rintro ⟨k, hk, hmem⟩
          exact ⟨k + 1, by omega, by
            have : start + 1 + k = start + (k + 1) := by omega
            rwa [this] at hmem⟩
        · rintro ⟨k, hk, hmem⟩
          cases k with
          | zero => exact absurd (by simpa using hmem) h
          | succ k =>
              exact ⟨k, by omega, by
                have : start + (k + 1) = start + 1 + k := by omega
                rwa [this] at hmem⟩

/-- C6: the offset index equals the worst-case index plus the fixed
constant `minus_worst = −9`, and the resampling loop has no iteration cap
and no failure path: for every observation bound it has found a batch
exactly when some already-sampled batch contains the offset index, it
terminates (for some finite observation bound) whenever some sampled batch
contains the offset index, and on a stream in which the offset index never
appears it is still running after every finite number of iterations. -/
theorem C6_offset_search (stream : ℕ → List ℤ) (hardest : ℤ) :
    offsetIndex hardest = hardest + (-9) ∧
      (∀ fuel : ℕ, (searchOffset stream (offsetIndex hardest) fuel).isSome ↔
        ∃ n, n < fuel ∧ offsetIndex hardest ∈ stream n) ∧
      (∀ n : ℕ, offsetIndex hardest ∈ stream n →
        ∃ fuel : ℕ, (searchOffset stream (offsetIndex hardest) fuel).isSome) ∧
      ((∀ n : ℕ, offsetIndex hardest ∉ stream n) →
        ∀ fuel : ℕ, searchOffset stream (offsetIndex hardest) fuel = none) := by
  refine ⟨rfl, ?_, ?_, ?_⟩
  · intro fuel
    rw [searchOffset, searchOffsetAux_isSome_iff]
    simp
  · intro n hn
    refine ⟨n + 1, ?_⟩
    rw [searchOffset, searchOffsetAux_isSome_iff]
    exact ⟨n, by omega, by simpa using hn⟩
  · intro hnever fuel
    have h := searchOffsetAux_isSome_iff stream (offsetIndex hardest) fuel 0
    rcases hs : searchOffsetAux stream (offsetIndex hardest) 0 fuel with _ | v
    · exact hs
    · exfalso
      rcases h.mp (by simp [hs]) with ⟨k, _, hmem⟩
      exact hnever _ hmem

/-- Witness for C6 at a concrete stream containing the offset index. -/
theorem C6_witness :
    offsetIndex 5 = -4 ∧
      (searchOffset (fun _ => [(-4 : ℤ)]) (offsetIndex 5) 1).isSome = true := by
  have h := C6_offset_search (fun _ => [(-4 : ℤ)]) 5
  refine ⟨by rw [h.1]; norm_num, ?_⟩
  rw [h.2.1 1]
  exact ⟨0, by omega, by rw [h.1]; norm_num⟩

/-- Helper: `argmax` of a nonempty loss vector is in bounds. -/
theorem argmax_lt (l : List ℚ) (h : l ≠ []) : argmax l < l.length := by
  induction l with
  | nil => exact absurd rfl h
  | cons x xs ih =>
    rw [argmax]
    by_cases hc : xs ≠ [] ∧ x < xs.getD (argmax xs) 0
    · rw [if_pos hc]
      simpa using ih hc.1
    · rw [if_neg hc]
      simp

/-- Helper: the entry at `argmax` bounds every entry of the loss vector. -/
theorem getD_argmax_ge (l : List ℚ) : ∀ y ∈ l, y ≤ l.getD (argmax l) 0 := by
  induction l with
  | nil => simp
  | cons x xs ih =>
    intro y hy
    rw [argmax]
    by_cases hc : xs ≠ [] ∧ x < xs.getD (argmax xs) 0
    · rw [if_pos hc, List.getD_cons_succ]
      rcases List.mem_cons.mp hy with rfl | hmem
      · exact le_of_lt hc.2
      · exact ih y hmem
    · rw [if_neg hc, List.getD_cons_zero]
      rcases List.mem_cons.mp hy with rfl | hmem
      · exact le_refl y
      · push_neg at hc
        have hne : xs ≠ [] := by rintro rfl; simp at hmem
        exact le_trans (ih y hmem) (hc hne)

/-- Helper: the entry at `argmax` is an entry of a nonempty loss vector. -/
theorem getD_argmax_mem (l : List ℚ) (h : l ≠ []) :
    l.getD (argmax l) 0 ∈ l := by
  have := argmax_lt l h
  rw [List.getD_eq_getElem _ _ this]
  exact List.getElem_mem this

/-- Helper invariant of the running-maximum loop: either no batch ever
beat the incoming state (which is then returned unchanged, every entry
being bounded by its loss), or the returned state retains a position whose
entry equals the returned loss, which strictly improved on the incoming
loss and bounds every entry of every batch. -/
theorem runSearchAux_spec :
    ∀ (bs : List (List ℚ)) (st : SearchState) (k : ℕ),
      (∀ b ∈ bs, b ≠ []) →
      (runSearchAux st k bs = st ∧ ∀ b ∈ bs, ∀ l ∈ b, l ≤ st.b2bLoss) ∨
      (∃ j i : ℕ, k ≤ j ∧ j - k < bs.length ∧
        (runSearchAux st k bs).hardest = some (j, i) ∧
        i < (bs.getD (j - k) []).length ∧
        (bs.getD (j - k) []).getD i 0 = (runSearchAux st k bs).b2bLoss ∧
        st.b2bLoss < (runSearchAux st k bs).b2bLoss ∧
        ∀ b ∈ bs, ∀ l ∈ b, l ≤ (runSearchAux st k bs).b2bLoss)
  | [], st, k, _ => by
      left
      exact ⟨rfl, by simp⟩
  | b :: bs, st, k, hrow => by
      have hb : b ≠ [] := hrow b (List.mem_cons_self b bs)
      have hrow' : ∀ x ∈ bs, x ≠ [] := fun x hx => hrow x (List.mem_cons_of_mem b hx)
      by_cases hupd : b.getD (argmax b) 0 > st.b2bLoss
      · have hstep : searchStep st k b =
            ⟨some (k, argmax b), b.getD (argmax b) 0⟩ := by
          rw [searchStep, if_pos hupd]
        have hrun : runSearchAux st k (b :: bs) =
            runSearchAux ⟨some (k, argmax b), b.getD (argmax b) 0⟩ (k + 1) bs := by
          rw [runSearchAux, hstep]
        rcases runSearchAux_spec bs ⟨some (k, argmax b), b.getD (argmax b) 0⟩
            (k + 1) hrow' with ⟨heq, hbnd⟩ | ⟨j, i, hkj, hjlen, hh, hi, hval, hlt, hbnd⟩
        · right
          refine ⟨k, argmax b, le_refl k, by simp, ?_, ?_, ?_, ?_, ?_⟩
          · rw [hrun, heq]
          · simpa using argmax_lt b hb
          · rw [hrun, heq]
            simp
          · rw [hrun, heq]
            exact hupd
          · rw [hrun, heq]
            intro c hc l hl
            rcases List.mem_cons.mp hc with rfl | hmem
            · exact getD_argmax_ge c l hl
            · exact hbnd c hmem l hl
        · right
          have hjk : k + 1 ≤ j := hkj
          have hsub : j - k = (j - (k + 1)) + 1 := by omega
          refine ⟨j, i, by omega, by simp; omega, ?_, ?_, ?_, ?_, ?_⟩
          · rw [hrun]
            exact hh
          · rw [hsub, List.getD_cons_succ]
            exact hi
          · rw [hrun, hsub, List.getD_cons_succ]
            exact hval
          · rw [hrun]
            exact lt_trans hupd hlt
          · rw [hrun]
            intro c hc l hl
            rcases List.mem_cons.mp hc with rfl | hmem
            · exact le_trans (getD_argmax_ge c l hl) (le_of_lt hlt)
            · exact hbnd c hmem l hl
      · have hstep : searchStep st k b = st := by
          rw [searchStep, if_neg hupd]
        have hrun : runSearchAux st k (b :: bs) = runSearchAux st (k + 1) bs := by
          rw [runSearchAux, hstep]
        push_neg at hupd
        have hble : ∀ l ∈ b, l ≤ st.b2bLoss :=
          fun l hl => le_trans (getD_argmax_ge b l hl) hupd
        rcases runSearchAux_spec bs st (k + 1) hrow' with
          ⟨heq, hbnd⟩ | ⟨j, i, hkj, hjlen, hh, hi, hval, hlt, hbnd⟩
        · left
          refine ⟨by rw [hrun, heq], ?_⟩
          intro c hc l hl
          rcases List.mem_cons.mp hc with rfl | hmem
          · exact hble l hl
          · exact hbnd c hmem l hl
        · right
          have hsub : j - k = (j - (k + 1)) + 1 := by omega
          refine ⟨j, i, by omega, by simp; omega, ?_, ?_, ?_, ?_, ?_⟩
          · rw [hrun]
            exact hh
          · rw [hsub, List.getD_cons_succ]
            exact hi
          · rw [hrun, hsub, List.getD_cons_succ]
            exact hval
          · rw [hrun]
            exact lt_of_le_of_lt (le_refl st.b2bLoss) hlt
          · rw [hrun]
            intro c hc l hl
            rcases List.mem_cons.mp hc with rfl | hmem
            · exact le_trans (hble l hl) (le_of_lt hlt)
            · exact hbnd c hmem l hl

/-- C7: over any nonempty run of test batches with nonempty, nonnegative
per-function mean-squared-error vectors (an MSE is always ≥ 0), the
retained hardest example is a function instance whose loss equals the
global maximum over all instances in all batches, and the retained
`b2b_loss` equals that global maximum. -/
theorem C7_hardest_attains_global_max (batches : List (List ℚ))
    (hne : batches ≠ []) (hrow : ∀ b ∈ batches, b ≠ [])
    (hpos : ∀ b ∈ batches, ∀ l ∈ b, 0 ≤ l) :
    ∃ bi i : ℕ, (runSearch batches).hardest = some (bi, i) ∧
      bi < batches.length ∧
      i < (batches.getD bi []).length ∧
      (batches.getD bi []).getD i 0 = (runSearch batches).b2bLoss ∧
      ∀ b ∈ batches, ∀ l ∈ b, l ≤ (runSearch batches).b2bLoss := by
  rcases runSearchAux_spec batches initState 0 hrow with
    ⟨heq, hbnd⟩ | ⟨j, i, _, hjlen, hh, hi, hval, _, hbnd⟩
  · exfalso
    rcases batches with _ | ⟨b, bs⟩
    · exact hne rfl
    rcases List.exists_mem_of_ne_nil b (hrow b (List.mem_cons_self b bs)) with ⟨l, hl⟩
    have h1 : 0 ≤ l := hpos b (List.mem_cons_self b bs) l hl
    have h2 : l ≤ initState.b2bLoss := hbnd b (List.mem_cons_self b bs) l hl
    have h3 : l ≤ (-1000000 : ℚ) := h2
    linarith
  · refine ⟨j, i, hh, ?_, ?_, ?_, hbnd⟩
    · omega
    · simpa using hi
    · simpa using hval

/-- Witness for C7 at a concrete batch list. -/
theorem C7_witness :
    ∃ bi i : ℕ, (runSearch [[1, 3], [2]]).hardest = some (bi, i) ∧
      bi < 2 ∧
      i < ((([[1, 3], [2]] : List (List ℚ))).getD bi []).length ∧
      ((([[1, 3], [2]] : List (List ℚ))).getD bi []).getD i 0 =
        (runSearch [[1, 3], [2]]).b2bLoss ∧
      ∀ b ∈ ([[1, 3], [2]] : List (List ℚ)), ∀ l ∈ b,
        l ≤ (runSearch [[1, 3], [2]]).b2bLoss := by
  have h := C7_hardest_attains_global_max [[1, 3], [2]] (by decide)
    (by decide) (by norm_num)
  simpa using h

/-- C8: with the pseudorandom generator seeded identically before any
sampling, two runs of the 1,000-iteration adversarial search over the same
dataset and model (the same `sampler` and the same PRNG transition `next`)
are equal — in particular they select the same hardest function
instance. -/
theorem C8_search_deterministic (next : ℕ → ℕ) (sampler : ℕ → List ℚ)
    (seed1 seed2 : ℕ) (hseed : seed1 = seed2) :
    adversarialSearch next sampler seed1 = adversarialSearch next sampler seed2 ∧
      (adversarialSearch next sampler seed1).hardest =
        (adversarialSearch next sampler seed2).hardest := by
  subst hseed
  exact ⟨rfl, rfl⟩

/-- Witness for C8 at a concrete PRNG, sampler, and seed. -/
theorem C8_witness :
    adversarialSearch Nat.succ (fun _ => [0]) 7 =
      adversarialSearch Nat.succ (fun _ => [0]) 7 := by
  exact (C8_search_deterministic Nat.succ (fun _ => [0]) 7 7 rfl).1

end TheoremsC6C7C8

section TheoremsC9C10

open PlotWorst TwoDDiffError

/-- C9: every point of the 200×200 grid lying strictly inside the circle
of radius 0.25 centered at (0.5, 0.5) is masked out of the contoured
field; every grid point strictly outside that circle is left unmasked —
with a finite interpolated value whenever it falls within the convex hull
of the scattered input points, and with the NaN fill value otherwise. -/
theorem C9_hole_mask (interp : ℚ → ℚ → Option ℚ) (inHull : ℚ → ℚ → Prop)
    (hinterp : ∀ x y, (interp x y).isSome = true ↔ inHull x y)
    (i j : ℕ) (hi : i < 200) (hj : j < 200) :
    ((gridCoord j - 1/2) ^ 2 + (gridCoord i - 1/2) ^ 2 < (1/4) ^ 2 →
        renderCell interp i j = Cell.masked) ∧
      ((1/4) ^ 2 < (gridCoord j - 1/2) ^ 2 + (gridCoord i - 1/2) ^ 2 →
        renderCell interp i j ≠ Cell.masked ∧
          (inHull (gridCoord j) (gridCoord i) →
            ∃ v, renderCell interp i j = Cell.val v) ∧
          (¬ inHull (gridCoord j) (gridCoord i) →
            renderCell interp i j = Cell.nan)) := by
  constructor
  · intro hin
    have hmask : maskAt i j = true := by
      rw [maskAt, decide_eq_true_eq]
      exact le_of_lt hin
    rw [renderCell, if_pos hmask]
  · intro hout
    have hmask : maskAt i j = false := by
      rw [maskAt, decide_eq_false_iff_not]
      exact not_le_of_lt hout
    rw [renderCell, if_neg (by simp [hmask])]
    refine ⟨?_, ?_, ?_⟩
    · rcases hc : interp (gridCoord j) (gridCoord i) with _ | v <;> simp
    · intro hhull
      have hsome : (interp (gridCoord j) (gridCoord i)).isSome = true :=
        (hinterp _ _).mpr hhull
      rcases hc : interp (gridCoord j) (gridCoord i) with _ | v
      · rw [hc] at hsome
        simp at hsome
      · exact ⟨v, rfl⟩
    · intro hhull
      rcases hc : interp (gridCoord j) (gridCoord i) with _ | v
      · rfl
      · exact absurd ((hinterp _ _).mp (by rw [hc]; rfl)) hhull

/-- Witness for C9 at a concrete grid point and interpolant. -/
theorem C9_witness :
    ∃ v, renderCell (fun _ _ => some 0) 0 0 = Cell.val v := by
  have h := (C9_hole_mask (fun _ _ => some 0) (fun _ _ => True)
    (by intro x y; simp) 0 0 (by norm_num) (by norm_num)).2
    (by norm_num [gridCoord])
  exact h.2.1 trivial

/-- Helper: `argmaxW` of a nonempty vector is in bounds. -/
theorem argmaxW_lt (d : WithBot ℚ) (l : List (WithBot ℚ)) (h : l ≠ []) :
    argmaxW d l < l.length := by
  induction l with
  | nil => exact absurd rfl h
  | cons x xs ih =>
    rw [argmaxW]
    by_cases hc : xs ≠ [] ∧ x < xs.getD (argmaxW d xs) d
    · rw [if_pos hc]
      simpa using ih hc.1
    · rw [if_neg hc]
      simp

/-- Helper: the entry at `argmaxW` bounds every entry. -/
theorem getD_argmaxW_ge (d : WithBot ℚ) (l : List (WithBot ℚ)) :
    ∀ y ∈ l, y ≤ l.getD (argmaxW d l) d := by
  induction l with
  | nil => simp
  | cons x xs ih =>
    intro y hy
    rw [argmaxW]
    by_cases hc : xs ≠ [] ∧ x < xs.getD (argmaxW d xs) d
    · rw [if_pos hc, List.getD_cons_succ]
      rcases List.mem_cons.mp hy with rfl | hmem
      · exact le_of_lt hc.2
      · exact ih y hmem
    · rw [if_neg hc, List.getD_cons_zero]
      rcases List.mem_cons.mp hy with rfl | hmem
      · exact le_refl y
      · push_neg at hc
        have hne : xs ≠ [] := by rintro rfl; simp at hmem
        exact le_trans (ih y hmem) (hc hne)

/-- Helper: reading the masked loss vector at an in-bounds position. -/
theorem maskedLosses_getD (b : List (ℤ × ℚ)) (m : ℕ) (hm : m < b.length) :
    (maskedLosses b).getD m ⊥ =
      (if validIdx ((b.getD m (0, 0)).1)
        then (((b.getD m (0, 0)).2 : ℚ) : WithBot ℚ) else ⊥) := by
  have hm' : m < (maskedLosses b).length := by
    rw [maskedLosses, List.length_map]
    exact hm
  rw [List.getD_eq_getElem _ _ hm', List.getD_eq_getElem _ _ hm]
  simp [maskedLosses]

/-- Helper: a batch every instance of which has an out-of-range function
index is skipped, leaving the state unchanged. -/
theorem relStep_no_valid (st : RelSearchState) (b : List (ℤ × ℚ))
    (h : ∀ p ∈ b, validIdx p.1 = false) : relStep st b = st := by
  rw [relStep, if_pos]
  rw [List.all_eq_true]
  intro p hp
  simp [h p hp]

/-- Helper: processing a batch that contains a valid instance, with
nonnegative losses, from the initial state or a good state, yields a good
state. -/
theorem relStep_good (st : RelSearchState) (b : List (ℤ × ℚ))
    (hb : ∀ p ∈ b, 0 ≤ p.2)
    (hvalid : ∃ p ∈ b, validIdx p.1 = true)
    (hst : st = initRelState ∨ goodState st) :
    goodState (relStep st b) := by
  obtain ⟨p, hp, hpv⟩ := hvalid
  have hbne : b ≠ [] := by rintro rfl; simp at hp
  have hmne : maskedLosses b ≠ [] := by
    rw [maskedLosses]
    simpa using hbne
  have hcond : ¬ (b.all (fun p => !validIdx p.1) = true) := by
    rw [List.all_eq_true]
    intro hall
    have := hall p hp
    simp [hpv] at this
  have hpmem : ((p.2 : WithBot ℚ)) ∈ maskedLosses b := by
    have heq : (if validIdx p.1 then (p.2 : WithBot ℚ) else ⊥) = (p.2 : WithBot ℚ) := by
      simp [hpv]
    rw [maskedLosses]
    exact heq ▸ List.mem_map_of_mem _ hp
  have hmax_ge : ((p.2 : WithBot ℚ)) ≤
      (maskedLosses b).getD (argmaxW ⊥ (maskedLosses b)) ⊥ :=
    getD_argmaxW_ge ⊥ (maskedLosses b) _ hpmem
  have h0p : ((0 : ℚ) : WithBot ℚ) ≤ (p.2 : WithBot ℚ) := by
    exact_mod_cast hb p hp
  have hmax0 : ((0 : ℚ) : WithBot ℚ) ≤
      (maskedLosses b).getD (argmaxW ⊥ (maskedLosses b)) ⊥ :=
    le_trans h0p hmax_ge
  rw [relStep, if_neg hcond]
  by_cases hupd : st.maxRelLoss <
      (maskedLosses b).getD (argmaxW ⊥ (maskedLosses b)) ⊥
  · rw [if_pos hupd]
    have hmlt : argmaxW ⊥ (maskedLosses b) < (maskedLosses b).length :=
      argmaxW_lt ⊥ (maskedLosses b) hmne
    have hblt : argmaxW ⊥ (maskedLosses b) < b.length := by
      have : (maskedLosses b).length = b.length := by
        rw [maskedLosses, List.length_map]
      omega
    have hgetm := maskedLosses_getD b (argmaxW ⊥ (maskedLosses b)) hblt
    rcases hv : validIdx ((b.getD (argmaxW ⊥ (maskedLosses b)) (0, 0)).1) with _ | _
    · exfalso
      rw [hv, if_neg (by simp)] at hgetm
      rw [hgetm] at hmax0
      simp at hmax0
    · have hrange : 100 ≤ (b.getD (argmaxW ⊥ (maskedLosses b)) (0, 0)).1 ∧
          (b.getD (argmaxW ⊥ (maskedLosses b)) (0, 0)).1 ≤ 150 :=
        of_decide_eq_true hv
      exact ⟨rfl, (b.getD (argmaxW ⊥ (maskedLosses b)) (0, 0)).1, rfl,
        hrange.1, hrange.2, hmax0⟩
  · rw [if_neg hupd]
    push_neg at hupd
    have h0st : ((0 : ℚ) : WithBot ℚ) ≤ st.maxRelLoss := le_trans hmax0 hupd
    rcases hst with rfl | ⟨hfound, n, hidx, h1, h2, h0⟩
    · exfalso
      have : ((0 : ℚ) : WithBot ℚ) ≤ ((-1000000 : ℚ) : WithBot ℚ) := h0st
      rw [WithBot.coe_le_coe] at this
      norm_num at this
    · exact ⟨rfl, n, hidx, h1, h2, h0⟩

/-- Helper: a good state stays good through any further batch with
nonnegative losses. -/
theorem relStep_keeps_good (st : RelSearchState) (b : List (ℤ × ℚ))
    (hb : ∀ p ∈ b, 0 ≤ p.2) (hg : goodState st) : goodState (relStep st b) := by
  by_cases hall : b.all (fun p => !validIdx p.1) = true
  · rw [relStep, if_pos hall]
    exact hg
  · have hvalid : ∃ p ∈ b, validIdx p.1 = true := by
      rw [List.all_eq_true] at hall
      push_neg at hall
      obtain ⟨p, hp, hv⟩ := hall
      exact ⟨p, hp, by simpa using hv⟩
    exact relStep_good st b hb hvalid (Or.inr hg)

/-- Helper: folding the step over batches with nonnegative losses keeps a
good state good. -/
theorem foldl_relStep_good (batches : List (List (ℤ × ℚ)))
    (st : RelSearchState)
    (hbs : ∀ b ∈ batches, ∀ p ∈ b, 0 ≤ p.2) (hg : goodState st) :
    goodState (batches.foldl relStep st) := by
  induction batches generalizing st with
  | nil => exact hg
  | cons b bs ih =>
    exact ih (relStep st b)
      (fun c hc => hbs c (List.mem_cons_of_mem b hc))
      (relStep_keeps_good st b (hbs b (List.mem_cons_self b bs)) hg)

/-- Helper: with no valid index anywhere, the fold is the identity. -/
theorem foldl_relStep_no_valid (batches : List (List (ℤ × ℚ)))
    (st : RelSearchState)
    (hnv : ∀ b ∈ batches, ∀ p ∈ b, validIdx p.1 = false) :
    batches.foldl relStep st = st := by
  induction batches generalizing st with
  | nil => rfl
  | cons b bs ih =>
    rw [List.foldl_cons, relStep_no_valid st b (hnv b (List.mem_cons_self b bs))]
    exact ih st (fun c hc => hnv c (List.mem_cons_of_mem b hc))

/-- Helper: if some batch contains a valid instance, the fold from the
initial state (or any good state) ends in a good state. -/
theorem foldl_relStep_finds (batches : List (List (ℤ × ℚ)))
    (st : RelSearchState)
    (hbs : ∀ b ∈ batches, ∀ p ∈ b, 0 ≤ p.2)
    (hst : st = initRelState ∨ goodState st)
    (hex : ∃ b ∈ batches, ∃ p ∈ b, validIdx p.1 = true) :
    goodState (batches.foldl relStep st) := by
  induction batches generalizing st with
  | nil =>
    obtain ⟨b, hb, _⟩ := hex
    simp at hb
  | cons b bs ih =>
    have hbnn : ∀ p ∈ b, 0 ≤ p.2 := hbs b (List.mem_cons_self b bs)
    have hbsnn : ∀ c ∈ bs, ∀ p ∈ c, 0 ≤ p.2 :=
      fun c hc => hbs c (List.mem_cons_of_mem b hc)
    by_cases hvb : ∃ p ∈ b, validIdx p.1 = true
    · exact foldl_relStep_good bs (relStep st b) hbsnn
        (relStep_good st b hbnn hvb hst)
    · have hbskip : relStep st b = st := by
        apply relStep_no_valid
        intro p hp
        rcases hv : validIdx p.1 with _ | _
        · rfl
        · exact absurd ⟨p, hp, hv⟩ hvb
      rw [List.foldl_cons, hbskip]
      apply ih st hbsnn hst
      rcases hex with ⟨c, hc, p, hp, hv⟩
      rcases List.mem_cons.mp hc with rfl | hmem
      · exact absurd ⟨p, hp, hv⟩ hvb
      · exact ⟨c, hmem, p, hp, hv⟩

/-- C10: over batches of (function index, relative loss) pairs with
nonnegative losses, if no sampled batch contains a function index in
[100,150] the driver raises RuntimeError after the search loop; and
whenever at least one batch contains such an index, the retained hardest
instance has a function index in [100,150]. -/
theorem C10_valid_range_guard (batches : List (List (ℤ × ℚ)))
    (hpos : ∀ b ∈ batches, ∀ p ∈ b, 0 ≤ p.2) :
    ((∀ b ∈ batches, ∀ p ∈ b, ¬ (100 ≤ p.1 ∧ p.1 ≤ 150)) →
        relSearchResult batches = Except.error "RuntimeError") ∧
      ((∃ b ∈ batches, ∃ p ∈ b, 100 ≤ p.1 ∧ p.1 ≤ 150) →
        ∃ n : ℤ, relSearchResult batches = Except.ok n ∧ 100 ≤ n ∧ n ≤ 150) := by
  constructor
  · intro hnv
    have heq : runRelSearch batches = initRelState :=
      foldl_relStep_no_valid batches initRelState
        (fun b hb p hp => decide_eq_false (hnv b hb p hp))
    rw [relSearchResult]
    rw [heq]
    rfl
  · intro hex
    have hg : goodState (runRelSearch batches) :=
      foldl_relStep_finds batches initRelState hpos (Or.inl rfl)
        (by
          obtain ⟨b, hb, p, hp, hrange⟩ := hex
          exact ⟨b, hb, p, hp, decide_eq_true hrange⟩)
    obtain ⟨hfound, n, hidx, h1, h2, _⟩ := hg
    refine ⟨n, ?_, h1, h2⟩
    rw [relSearchResult]
    rw [hfound, hidx]
    rfl

/-- Witness for C10 at a concrete batch list containing a valid index. -/
theorem C10_witness :
    ∃ n : ℤ, relSearchResult [[((120 : ℤ), (1 : ℚ))]] = Except.ok n ∧
      100 ≤ n ∧ n ≤ 150 := by
  exact (C10_valid_range_guard [[(120, 1)]] (by norm_num)).2
    ⟨[(120, 1)], by simp, (120, 1), by simp, by norm_num⟩

end TheoremsC9C10
